import Mathlib

/-!
Shallow embedding of `src/index.ts` (`useHistoryState`): a bounded
undo/redo history container.  The hook owns a state of three sequences
(`past`, `present`, `future`), a pure reducer over five action kinds, and
guarded `undo`/`redo` callbacks that throw before dispatching when the
operation is not allowed.  All definitions below are translated from the
TypeScript source; JS array-method semantics (`slice` with negative or
out-of-range arguments, indexing past the end) are modelled explicitly.
-/

namespace UseHistoryState

/-- The `IState` interface of the hook: `past`, `present`, `future`. -/
structure IState (T : Type) where
  past : List T
  present : T
  future : List T
deriving DecidableEq

/-- The `ActionType` enum together with each action's payload
(`SET` / `SET_NOT_UNDOABLE` carry a payload, the rest do not). -/
inductive Action (T : Type) where
  | SET (payload : T)
  | SET_NOT_UNDOABLE (payload : T)
  | UNDO
  | REDO
  | RESET

/-- JS `arr.slice(-n)` for a natural number `n`, as used in
`state.past.slice(-size)`: the last `n` elements of the array, except
that in JS `-0 = 0`, so `n = 0` yields the whole array. -/
def sliceLast (l : List α) (n : Nat) : List α :=
  if n = 0 then l else l.drop (l.length - n)

/-- `initState`: `past = []`, `present = value`, `future = []`, where
`value` is the hook's construction argument. -/
def initState (value : T) : IState T :=
  { past := [], present := value, future := [] }

/-- The pure `reducer` of the hook, one case per `ActionType`.
`value` and `size` are the hook's construction parameters, captured by
the reducer's closure.  JS reads of `arr[arr.length - 1]` on an empty
array produce `undefined`; those out-of-range reads (reachable only when
the guards in `undo`/`redo` are bypassed) are modelled as `default`. -/
def reducer [Inhabited T] (value : T) (size : Nat) (state : IState T) :
    Action T → IState T
  | .SET payload =>
      { state with
          past := sliceLast state.past size ++ [state.present]
          present := payload }
  | .SET_NOT_UNDOABLE payload =>
      { state with present := payload }
  | .UNDO =>
      { past := state.past.dropLast
        present := (state.past.getLast?).getD default
        future := state.future ++ [state.present] }
  | .REDO =>
      { past := state.past.drop size ++ [state.present]
        present := (state.future.getLast?).getD default
        future := state.future.dropLast }
  | .RESET => initState value

/-- `canUndo = !!state.past.length`. -/
def canUndo (s : IState T) : Bool := !s.past.isEmpty

/-- `canRedo = !!state.future.length`. -/
def canRedo (s : IState T) : Bool := !s.future.isEmpty

/-- The `Arg` type of `setState`: either a literal value of type `T` or
an updater function `(state : T) => T`; `isFunc` distinguishes the two
at runtime, which the sum type does by its constructors. -/
inductive Arg (T : Type) where
  | val (v : T)
  | func (f : T → T)

/-- The resolution step of `setState`:
`isFunc(payload) ? payload(state.present) : payload`. -/
def resolveArg (a : Arg T) (present : T) : T :=
  match a with
  | .val v => v
  | .func f => f present

/-- `setState(payload, notUndoAble)`: resolve the payload against the
current `present`, then dispatch `SET_NOT_UNDOABLE` or `SET`. -/
def setState [Inhabited T] (value : T) (size : Nat) (s : IState T)
    (payload : Arg T) (notUndoAble : Bool) : IState T :=
  let newState := resolveArg payload s.present
  if notUndoAble then reducer value size s (.SET_NOT_UNDOABLE newState)
  else reducer value size s (.SET newState)

/-- The `undo` callback: if `canUndo`, dispatch `UNDO` (the store rolls
to the reduced state, no error); otherwise throw
`Error('Undo not allowed')` before dispatching, so the store's state is
the old one and the error is surfaced. -/
def runUndo [Inhabited T] (value : T) (size : Nat) (s : IState T) :
    IState T × Option String :=
  if canUndo s then (reducer value size s .UNDO, none)
  else (s, some "Undo not allowed")

/-- The `redo` callback: if `canRedo`, dispatch `REDO`; otherwise throw
`Error('Redo not allowed')` before dispatching. -/
def runRedo [Inhabited T] (value : T) (size : Nat) (s : IState T) :
    IState T × Option String :=
  if canRedo s then (reducer value size s .REDO, none)
  else (s, some "Redo not allowed")

/-- The `reset` callback: dispatch `RESET` unconditionally. -/
def runReset [Inhabited T] (value : T) (size : Nat) (s : IState T) : IState T :=
  reducer value size s .RESET

/-- One user-visible command of the hook's public surface. -/
inductive Op (T : Type) where
  | set (a : Arg T)
  | setSilent (a : Arg T)
  | undo
  | redo
  | reset

/-- The state reached after one command; a failed `undo`/`redo` throws
before dispatching, so the committed state is unchanged. -/
def runOp [Inhabited T] (value : T) (size : Nat) (s : IState T) :
    Op T → IState T
  | .set a => setState value size s a false
  | .setSilent a => setState value size s a true
  | .undo => (runUndo value size s).1
  | .redo => (runRedo value size s).1
  | .reset => runReset value size s

/-- The state reached after a sequence of commands. -/
def runOps [Inhabited T] (value : T) (size : Nat) (s : IState T)
    (ops : List (Op T)) : IState T :=
  ops.foldl (runOp value size) s

/-- Spec-side rendering of `redo`'s effect on `past`, for comparison
with the source's `[...state.past.slice(size), state.present]`: "append
the old `present` onto `past`; entries beyond `capacity` from the front
are dropped". -/
def redoSpecPast (size : Nat) (s : IState T) : List T :=
  let p := s.past ++ [s.present]
  p.drop (p.length - size)

/-! ### Helper lemmas -/

/-- `slice(-n)` keeps at most `n` elements when `n` is positive. -/
theorem sliceLast_length_le (l : List α) {n : Nat} (h : 0 < n) :
    (sliceLast l n).length ≤ n := by
  rw [sliceLast, if_neg (Nat.pos_iff_ne_zero.mp h)]
  rw [List.length_drop]
  omega

/-- Every single command preserves the bound `|past| ≤ size + 1`
when the capacity is positive. -/
theorem runOp_past_length_le [Inhabited T] (value : T) {size : Nat} (h : 0 < size)
    (s : IState T) (op : Op T) (hs : s.past.length ≤ size + 1) :
    (runOp value size s op).past.length ≤ size + 1 := by
  cases op with
  | set a =>
      have hc := sliceLast_length_le s.past h
      simp only [runOp, setState, reducer, Bool.false_eq_true, if_false,
        List.length_append, List.length_cons, List.length_nil]
      omega
  | setSilent a =>
      simpa only [runOp, setState, reducer, if_true] using hs
  | undo =>
      simp only [runOp, runUndo]
      by_cases hc : canUndo s = true
      · simp only [hc, if_true, reducer, List.length_dropLast]
        omega
      · simp only [hc, if_false]
        exact hs
  | redo =>
      simp only [runOp, runRedo]
      by_cases hc : canRedo s = true
      · simp only [hc, if_true, reducer, List.length_append, List.length_cons,
          List.length_nil, List.length_drop]
        omega
      · simp only [hc, if_false]
        exact hs
  | reset =>
      simp only [runOp, runReset, reducer, initState, List.length_nil]
      omega

/-- The bound `|past| ≤ size + 1` is preserved by every command sequence. -/
theorem runOps_past_length_le [Inhabited T] (value : T) {size : Nat} (h : 0 < size)
    (s : IState T) (ops : List (Op T)) (hs : s.past.length ≤ size + 1) :
    (runOps value size s ops).past.length ≤ size + 1 := by
  induction ops generalizing s with
  | nil => exact hs
  | cons op ops ih =>
      exact ih (runOp value size s op) (runOp_past_length_le value h s op hs)

/-! ### Claims -/

/-- Claim C1, counterexample: the claim says `|past|` never exceeds the
capacity after any committed transition.  With capacity `1`, two
undoable `set` calls from the initial state leave `|past| = 2 > 1`,
because the reducer's `SET` case takes the last `size` elements of
`past` and then appends the old `present` on top of them. -/
theorem c1_counterexample :
    ¬ ((runOps (0 : Nat) 1 (initState 0)
        [Op.set (Arg.val 1), Op.set (Arg.val 2)]).past.length ≤ 1) := by
  decide

/-- Claim C1, amended: for a store constructed with positive capacity
`size`, the length of `past` after any committed command sequence is at
most `size + 1` (not `size`); in particular, for all sequences of
undoable `set` calls, `|past|` after each call is at most `size + 1`. -/
theorem c1_amended_past_bound [Inhabited T] (value : T) (size : Nat) (h : 0 < size) :
    (∀ ops : List (Op T),
        (runOps value size (initState value) ops).past.length ≤ size + 1) ∧
    (∀ vs : List T,
        (runOps value size (initState value)
          (vs.map fun v => Op.set (Arg.val v))).past.length ≤ size + 1) :=
  ⟨fun ops => runOps_past_length_le value h (initState value) ops (by simp [initState]),
   fun vs => runOps_past_length_le value h (initState value) _ (by simp [initState])⟩

/-- Claim C1, witness for the amended bound at capacity `1` and the
set-call sequence `1, 2, 3`. -/
theorem c1_amended_past_bound_witness :
    (0 : Nat) < 1 ∧
    (runOps (0 : Nat) 1 (initState 0)
      ([1, 2, 3].map fun v => Op.set (Arg.val v))).past.length ≤ 1 + 1 :=
  ⟨by decide, (c1_amended_past_bound 0 1 (by decide)).2 [1, 2, 3]⟩

/-- Claim C2, counterexample: the claim says `redo` appends the old
`present` onto `past` and only drops entries beyond the capacity from
the front.  With capacity `20`, `past = [1, 2]`, `present = 3`,
`future = [4]`, the claim predicts the new `past = [1, 2, 3]`
(`redoSpecPast`), but the code computes
`[...past.slice(size), present] = [3]`: `slice(size)` removes the FIRST
`size` elements instead of trimming the appended list to the last
`size`. -/
theorem c2_counterexample :
    (runRedo (0 : Nat) 20 ⟨[1, 2], 3, [4]⟩).1.past = [3] ∧
    redoSpecPast 20 (⟨[1, 2], 3, [4]⟩ : IState Nat) = [1, 2, 3] ∧
    (runRedo (0 : Nat) 20 ⟨[1, 2], 3, [4]⟩).1.past ≠
      redoSpecPast 20 (⟨[1, 2], 3, [4]⟩ : IState Nat) := by
  decide

/-- Claim C2, amended: for every state with non-empty `future`, `redo`
pops the last element of `future` into `present`, sets the new `past`
to the old `past` with its first `size` elements removed followed by
the old `present`, and sets the new `future` to all but the last
element of the old `future`; no error is raised. -/
theorem c2_redo_effect [Inhabited T] (value : T) (size : Nat) (s : IState T)
    (h : s.future ≠ []) :
    runRedo value size s =
      (⟨s.past.drop size ++ [s.present], s.future.getLast h,
        s.future.dropLast⟩, none) := by
  have hc : canRedo s = true := by
    simp [canRedo, List.isEmpty_iff, h]
  rw [runRedo, if_pos hc]
  simp [reducer, List.getLast?_eq_getLast s.future h]

/-- Claim C2, witness for the amended effect at a concrete state. -/
theorem c2_redo_effect_witness :
    ([4] : List Nat) ≠ [] ∧
    runRedo (0 : Nat) 20 ⟨[1, 2], 3, [4]⟩ = (⟨[3], 4, []⟩, none) :=
  ⟨by decide, c2_redo_effect 0 20 ⟨[1, 2], 3, [4]⟩ (by decide)⟩

/-- Claim C3: for every state, an undoable `set` with resolved input
yields new `past` equal to the last `size` elements of the old `past`
followed by the old `present`, new `present` equal to the resolved
input, and `future` unchanged (for a positive capacity, as fixed at
construction). -/
theorem c3_set_undoable [Inhabited T] (value : T) (size : Nat) (h : 0 < size)
    (s : IState T) (a : Arg T) :
    setState value size s a false =
      ⟨s.past.drop (s.past.length - size) ++ [s.present],
        resolveArg a s.present, s.future⟩ := by
  simp [setState, reducer, sliceLast, Nat.pos_iff_ne_zero.mp h]

/-- Claim C3, witness at capacity `1`, state `⟨[7], 5, [9]⟩`, input `3`. -/
theorem c3_set_undoable_witness :
    (0 : Nat) < 1 ∧
    setState (0 : Nat) 1 ⟨[7], 5, [9]⟩ (Arg.val 3) false = ⟨[7, 5], 3, [9]⟩ :=
  ⟨by decide, c3_set_undoable 0 1 (by decide) ⟨[7], 5, [9]⟩ (Arg.val 3)⟩

/-- Claim C4: for every state with non-empty `past`, `undo` pops the
last element of `past` into `present`, pushes the old `present` onto
the end of `future`, and sets the new `past` to all but the last
element of the old `past`; no error is raised. -/
theorem c4_undo_effect [Inhabited T] (value : T) (size : Nat) (s : IState T)
    (h : s.past ≠ []) :
    runUndo value size s =
      (⟨s.past.dropLast, s.past.getLast h, s.future ++ [s.present]⟩, none) := by
  have hc : canUndo s = true := by
    simp [canUndo, List.isEmpty_iff, h]
  rw [runUndo, if_pos hc]
  simp [reducer, List.getLast?_eq_getLast s.past h]

/-- Claim C4, witness at the state `⟨[0, 1], 2, [5]⟩`. -/
theorem c4_undo_effect_witness :
    ([0, 1] : List Nat) ≠ [] ∧
    runUndo (0 : Nat) 20 ⟨[0, 1], 2, [5]⟩ = (⟨[0], 1, [5, 2]⟩, none) :=
  ⟨by decide, c4_undo_effect 0 20 ⟨[0, 1], 2, [5]⟩ (by decide)⟩

/-- Claim C5: `undo` fails with the `Undo not allowed` error exactly
when `past` is empty, `redo` fails with the `Redo not allowed` error
exactly when `future` is empty, and in both failure cases the store's
state is left completely unchanged (the pair returned is exactly the
old state with the error). -/
theorem c5_guard_errors [Inhabited T] (value : T) (size : Nat) (s : IState T) :
    ((runUndo value size s).2 = none ↔ s.past ≠ []) ∧
    (runUndo value size s = (s, some "Undo not allowed") ↔ s.past = []) ∧
    ((runRedo value size s).2 = none ↔ s.future ≠ []) ∧
    (runRedo value size s = (s, some "Redo not allowed") ↔ s.future = []) := by
  obtain ⟨p, pr, f⟩ := s
  cases p <;> cases f <;>
    simp [runUndo, runRedo, canUndo, canRedo, reducer]

/-- Claim C6: for every state with non-empty `past`, `undo` followed
immediately by `redo` restores the `present` value held before the
`undo`. -/
theorem c6_undo_redo_roundtrip [Inhabited T] (value : T) (size : Nat)
    (s : IState T) (h : s.past ≠ []) :
    ((runRedo value size (runUndo value size s).1).1).present = s.present := by
  have hc : canUndo s = true := by
    simp [canUndo, List.isEmpty_iff, h]
  rw [runUndo, if_pos hc]
  have hr : canRedo (reducer value size s .UNDO) = true := by
    simp [canRedo, reducer]
  rw [runRedo, if_pos hr]
  simp [reducer, List.getLast?_concat]

/-- Claim C6, witness at the state `⟨[0, 1], 2, [5]⟩`. -/
theorem c6_undo_redo_roundtrip_witness :
    ([0, 1] : List Nat) ≠ [] ∧
    ((runRedo (0 : Nat) 20 (runUndo (0 : Nat) 20 ⟨[0, 1], 2, [5]⟩).1).1).present = 2 :=
  ⟨by decide, c6_undo_redo_roundtrip 0 20 ⟨[0, 1], 2, [5]⟩ (by decide)⟩

/-- Claim C7: for every state, `reset` returns the baseline state
captured at construction — `past = []`, `present` the construction
value, `future = []` — regardless of the prior history; it does not
consult the current state. -/
theorem c7_reset_baseline [Inhabited T] (value : T) (size : Nat) (s : IState T) :
    runOp value size s Op.reset = initState value ∧
    (initState value : IState T) = ⟨[], value, []⟩ :=
  ⟨rfl, rfl⟩

/-- Claim C8: for every state and every input, a silent `set`
(`notUndoAble = true`) changes only `present`; `past` and `future` are
exactly the sequences of the old state. -/
theorem c8_silent_set_frame [Inhabited T] (value : T) (size : Nat) (s : IState T)
    (a : Arg T) :
    setState value size s a true = ⟨s.past, resolveArg a s.present, s.future⟩ :=
  rfl

/-- Claim C9: a `set` call whose input is a function `f` is evaluated
against the `present` value of the state the call acts on, and produces
the same resulting state as calling `set` with the literal value
`f present`, in both the undoable and the silent mode. -/
theorem c9_lazy_resolution [Inhabited T] (value : T) (size : Nat) (s : IState T)
    (f : T → T) (u : Bool) :
    setState value size s (Arg.func f) u =
      setState value size s (Arg.val (f s.present)) u ∧
    (setState value size s (Arg.func f) u).present = f s.present := by
  cases u <;> exact ⟨rfl, rfl⟩

/-- Claim C10: for a store constructed with positive capacity `size`,
every state reached from the initial state by any command sequence has
`|past| ≤ size + 1`, and every single operation (undoable and silent
`set`, `undo`, `redo`, `reset`) preserves this bound. -/
theorem c10_past_invariant [Inhabited T] (value : T) (size : Nat) (h : 0 < size) :
    (∀ (s : IState T) (op : Op T), s.past.length ≤ size + 1 →
        (runOp value size s op).past.length ≤ size + 1) ∧
    (∀ ops : List (Op T),
        (runOps value size (initState value) ops).past.length ≤ size + 1) :=
  ⟨fun s op hs => runOp_past_length_le value h s op hs,
   fun ops => runOps_past_length_le value h (initState value) ops (by simp [initState])⟩

/-- Claim C10, witness at capacity `1` for a mixed command sequence. -/
theorem c10_past_invariant_witness :
    (0 : Nat) < 1 ∧
    (runOps (0 : Nat) 1 (initState 0)
      [Op.set (Arg.val 5), Op.undo, Op.redo, Op.set (Arg.val 6)]).past.length ≤ 1 + 1 :=
  ⟨by decide, (c10_past_invariant 0 1 (by decide)).2
    [Op.set (Arg.val 5), Op.undo, Op.redo, Op.set (Arg.val 6)]⟩

end UseHistoryState
